import Mathlib

/-!
Verification development for the MDMagic repository: the response-recovery
(JSON normalization) layer, the rule-merge flow, the storage invariants and
the caller-side retry policy, shallowly embedded from the TypeScript source
(`src/api/services/modelscopeService.ts`, `src/api/services/aiService.ts`,
`src/api/services/storageService.ts`, `src/api/routes/markdown.ts`, and the
UI extraction handler).

Strings are modelled as `List Char` where character-level scanning matters;
timestamps are modelled as natural numbers (epoch milliseconds, the value
underlying `Date.now()` / `new Date(...).getTime()`).
-/

/-- JSON values. Model of the value space of JavaScript `JSON.parse`.
Numbers keep their raw numeral text (the claims never compute with them). -/
inductive Json where
  | null
  | bool (b : Bool)
  | num (raw : String)
  | str (s : String)
  | arr (elems : List Json)
  | obj (fields : List (String × Json))

/-- JSON insignificant whitespace (ECMA-404). -/
def jsonWs (c : Char) : Bool :=
  c = ' ' || c = '\t' || c = '\n' || c = '\r'

/-- Skip JSON whitespace. -/
def skipWs (cs : List Char) : List Char :=
  cs.dropWhile jsonWs

/-- Single-character JSON escapes. -/
def escChar : Char → Option Char
  | '"' => some '"'
  | '\\' => some '\\'
  | '/' => some '/'
  | 'b' => some (Char.ofNat 8)
  | 'f' => some (Char.ofNat 12)
  | 'n' => some '\n'
  | 'r' => some '\r'
  | 't' => some '\t'
  | _ => none

/-- Hex digit value. -/
def hexVal (c : Char) : Option Nat :=
  if '0' ≤ c ∧ c ≤ '9' then some (c.toNat - '0'.toNat)
  else if 'a' ≤ c ∧ c ≤ 'f' then some (c.toNat - 'a'.toNat + 10)
  else if 'A' ≤ c ∧ c ≤ 'F' then some (c.toNat - 'A'.toNat + 10)
  else none

/-- Parse the body of a JSON string literal, after the opening quote.
Returns the decoded content and the remainder after the closing quote.
Raw control characters are rejected, as `JSON.parse` does. -/
def parseStringBody : List Char → Option (List Char × List Char)
  | [] => none
  | '"' :: rest => some ([], rest)
  | '\\' :: 'u' :: h1 :: h2 :: h3 :: h4 :: rest =>
    match hexVal h1, hexVal h2, hexVal h3, hexVal h4 with
    | some a, some b, some c, some d =>
      match parseStringBody rest with
      | some (content, r) =>
        some (Char.ofNat (((a * 16 + b) * 16 + c) * 16 + d) :: content, r)
      | none => none
    | _, _, _, _ => none
  | '\\' :: c :: rest =>
    match escChar c with
    | some e =>
      match parseStringBody rest with
      | some (content, r) => some (e :: content, r)
      | none => none
    | none => none
  | c :: rest =>
    if c.toNat < 32 then none
    else
      match parseStringBody rest with
      | some (content, r) => some (c :: content, r)
      | none => none

/-- Decimal digit test. -/
def isDigitCh (c : Char) : Bool := '0' ≤ c && c ≤ '9'

/-- Optional JSON fraction part. -/
def parseFrac (acc : List Char) (cs : List Char) : Option (List Char × List Char) :=
  match cs with
  | '.' :: t =>
    match t.span isDigitCh with
    | ([], _) => none
    | (ds, r) => some (acc ++ '.' :: ds, r)
  | _ => some (acc, cs)

/-- Optional JSON exponent part. -/
def parseExp (acc : List Char) (cs : List Char) : Option (List Char × List Char) :=
  match cs with
  | e :: t =>
    if e = 'e' ∨ e = 'E' then
      let (sgn, t2) := match t with
        | '+' :: t2 => ([('+' : Char)], t2)
        | '-' :: t2 => ([('-' : Char)], t2)
        | _ => ([], t)
      match t2.span isDigitCh with
      | ([], _) => none
      | (ds, r) => some (acc ++ e :: sgn ++ ds, r)
    else some (acc, cs)
  | [] => some (acc, cs)

/-- Parse a JSON number (grammar of ECMA-404: no leading zeros, optional
fraction and exponent), returning its raw text and the remainder. -/
def parseNumber (cs : List Char) : Option (List Char × List Char) :=
  let (sgn, cs1) := match cs with
    | '-' :: t => ([('-' : Char)], t)
    | _ => ([], cs)
  match cs1 with
  | '0' :: t =>
    match parseFrac (sgn ++ ['0']) t with
    | some (a, r) => parseExp a r
    | none => none
  | c :: t =>
    if isDigitCh c ∧ c ≠ '0' then
      match (t.span isDigitCh) with
      | (ds, r) =>
        match parseFrac (sgn ++ c :: ds) r with
        | some (a, r2) => parseExp a r2
        | none => none
    else none
  | [] => none

mutual

/-- Parse one JSON value (fuel-bounded recursive-descent; the fuel is a
recursion bound only, always instantiated generously). -/
def parseValue : Nat → List Char → Option (Json × List Char)
  | 0, _ => none
  | Nat.succ fuel, cs =>
    match skipWs cs with
    | '{' :: rest =>
      match parseObjRest fuel rest with
      | some (fs, r) => some (Json.obj fs, r)
      | none => none
    | '[' :: rest =>
      match parseArrRest fuel rest with
      | some (es, r) => some (Json.arr es, r)
      | none => none
    | '"' :: rest =>
      match parseStringBody rest with
      | some (content, r) => some (Json.str (String.mk content), r)
      | none => none
    | 't' :: 'r' :: 'u' :: 'e' :: rest => some (Json.bool true, rest)
    | 'f' :: 'a' :: 'l' :: 's' :: 'e' :: rest => some (Json.bool false, rest)
    | 'n' :: 'u' :: 'l' :: 'l' :: rest => some (Json.null, rest)
    | other =>
      match parseNumber other with
      | some (raw, r) => some (Json.num (String.mk raw), r)
      | none => none

/-- Parse the inside of a JSON object, after the opening brace. -/
def parseObjRest : Nat → List Char → Option (List (String × Json) × List Char)
  | 0, _ => none
  | Nat.succ fuel, cs =>
    match skipWs cs with
    | '}' :: rest => some ([], rest)
    | '"' :: rest => parseMember fuel rest
    | _ => none

/-- Parse object members, starting right after a member key's opening quote. -/
def parseMember : Nat → List Char → Option (List (String × Json) × List Char)
  | 0, _ => none
  | Nat.succ fuel, cs =>
    match parseStringBody cs with
    | none => none
    | some (key, r1) =>
      match skipWs r1 with
      | ':' :: r2 =>
        match parseValue fuel r2 with
        | none => none
        | some (v, r3) =>
          match skipWs r3 with
          | ',' :: r4 =>
            match skipWs r4 with
            | '"' :: r5 =>
              match parseMember fuel r5 with
              | some (fs, r6) => some ((String.mk key, v) :: fs, r6)
              | none => none
            | _ => none
          | '}' :: r4 => some ([(String.mk key, v)], r4)
          | _ => none
      | _ => none

/-- Parse the inside of a JSON array, after the opening bracket. -/
def parseArrRest : Nat → List Char → Option (List Json × List Char)
  | 0, _ => none
  | Nat.succ fuel, cs =>
    match skipWs cs with
    | ']' :: rest => some ([], rest)
    | _ => parseElem fuel cs

/-- Parse array elements. -/
def parseElem : Nat → List Char → Option (List Json × List Char)
  | 0, _ => none
  | Nat.succ fuel, cs =>
    match parseValue fuel cs with
    | none => none
    | some (v, r1) =>
      match skipWs r1 with
      | ',' :: r2 =>
        match parseElem fuel r2 with
        | some (es, r3) => some (v :: es, r3)
        | none => none
      | ']' :: r2 => some ([v], r2)
      | _ => none

end

/-- Model of JavaScript `JSON.parse` acceptance: parse a full JSON text,
requiring only whitespace to remain. Returns the value, or `none` where
`JSON.parse` would throw a `SyntaxError`. -/
def jsonParse (cs : List Char) : Option Json :=
  match parseValue (2 * cs.length + 8) cs with
  | some (j, rest) => if skipWs rest = [] then some j else none
  | none => none


/-! ## Response Normalizer: `fixUnterminatedStrings`
Model of `ModelscopeService.fixUnterminatedStrings`
(`src/api/services/modelscopeService.ts:698-742`): a scan over the string
tracking in-string and escape state, re-emitting every character, and
appending one closing quote when a string literal is still open at
end-of-input.  (In the source, `lastQuoteIndex !== -1` is implied by
`inString === true`, since `lastQuoteIndex` is set whenever a string opens.) -/

/-- The character-by-character re-emission of `fixUnterminatedStrings`,
parameterized by the running `inString` / `escapeNext` state. -/
def fusAux : Bool → Bool → List Char → List Char
  | inString, _, [] => bif inString then ['"'] else []
  | inString, true, c :: cs => c :: fusAux inString false cs
  | inString, false, c :: cs =>
    if c = '\\' then c :: fusAux inString true cs
    else if c = '"' then c :: fusAux (!inString) false cs
    else c :: fusAux inString false cs

/-- The final `inString` state of the same scan. -/
def endInString : Bool → Bool → List Char → Bool
  | inString, _, [] => inString
  | inString, true, _ :: cs => endInString inString false cs
  | inString, false, c :: cs =>
    if c = '\\' then endInString inString true cs
    else if c = '"' then endInString (!inString) false cs
    else endInString inString false cs

/-- Model of `ModelscopeService.fixUnterminatedStrings`. -/
def fixUnterminatedStrings (cs : List Char) : List Char :=
  fusAux false false cs


/-! ## Response Normalizer: cleanup steps of `fixJsonString`
Models of the regex replacements in `ModelscopeService.fixJsonString`
(`src/api/services/modelscopeService.ts:645-693`), in source order. -/

/-- JavaScript `\s` (whitespace class), restricted to the characters that
can actually occur here: space, tab, newline, carriage return, vertical
tab, form feed and no-break space. -/
def isJsWs (c : Char) : Bool :=
  c = ' ' || c = '\t' || c = '\n' || c = '\r' ||
  c.toNat = 11 || c.toNat = 12 || c.toNat = 160

/-- Model of `.replace(/^X/, '')` for a single leading character `X`
(the BOM / zero-width-space / no-break-space strips). -/
def dropLeadChar (target : Char) (cs : List Char) : List Char :=
  match cs with
  | c :: t => if c = target then t else cs
  | [] => []

/-- Model of `.replace(/^[^{]*/, '')`: drop everything before the first brace
(everything, if there is none). -/
def dropToFirstBrace (cs : List Char) : List Char :=
  cs.dropWhile (fun c => c ≠ '{')

/-- Model of `.replace(/[^}]*$/, '')`: drop everything after the last brace
(everything, if there is none). -/
def dropAfterLastBrace (cs : List Char) : List Char :=
  (cs.reverse.dropWhile (fun c => c ≠ '}')).reverse

/-- Control characters removed by
`.replace(/[\x00-\x08\x0B\x0C\x0E-\x1F\x7F]/g, '')`. -/
def isBadCtl (c : Char) : Bool :=
  c.toNat ≤ 8 || c.toNat = 11 || c.toNat = 12 ||
  (14 ≤ c.toNat && c.toNat ≤ 31) || c.toNat = 127

/-- Strip the disallowed control characters. -/
def stripCtl (cs : List Char) : List Char :=
  cs.filter (fun c => !(isBadCtl c))

/-- Model of `.replace(/"([^"]*?)C([^"]*?)"/g, '"$1\C$2"')` for a control character
`C` (`\n`, `\r` or `\t`): inside a quote-delimited span, escape the first
occurrence of `C`.  `esc` is the escape letter emitted (`n`, `r`, `t`).
A failed match attempt at a quote resumes scanning at the next character,
as JavaScript global-regex scanning does. -/
def replaceCtlInStrAux (ctl esc : Char) : Nat → List Char → List Char
  | 0, cs => cs
  | Nat.succ fuel, cs =>
    match cs with
    | [] => []
    | c :: rest =>
      if c = '"' then
        let a := rest.takeWhile (fun x => x ≠ '"' && x ≠ ctl)
        match rest.drop a.length with
        | c1 :: r2 =>
          if c1 = ctl then
            let b := r2.takeWhile (fun x => x ≠ '"')
            match r2.drop b.length with
            | _ :: r4 =>
              ('"' :: a) ++ ('\\' :: esc :: b) ++
                ('"' :: replaceCtlInStrAux ctl esc fuel r4)
            | [] => '"' :: replaceCtlInStrAux ctl esc fuel rest
          else '"' :: replaceCtlInStrAux ctl esc fuel rest
        | [] => '"' :: replaceCtlInStrAux ctl esc fuel rest
      else c :: replaceCtlInStrAux ctl esc fuel rest

/-- Escape a raw control character appearing between quotes. -/
def replaceCtlInStr (ctl esc : Char) (cs : List Char) : List Char :=
  replaceCtlInStrAux ctl esc (cs.length + 1) cs

/-- Model of `.replace(/,\s*C/g, 'C')` for a closing character `C`:
single-pass global removal of a comma (plus whitespace) directly before a
closing brace/bracket.  Replacement does not rescan its own output, so
doubled commas leave one comma behind. -/
def removeCommaBeforeAux (close : Char) : Nat → List Char → List Char
  | 0, cs => cs
  | Nat.succ fuel, cs =>
    match cs with
    | [] => []
    | c :: rest =>
      if c = ',' then
        let w := rest.takeWhile isJsWs
        match rest.drop w.length with
        | c1 :: r2 =>
          if c1 = close then close :: removeCommaBeforeAux close fuel r2
          else ',' :: removeCommaBeforeAux close fuel rest
        | [] => ',' :: removeCommaBeforeAux close fuel rest
      else c :: removeCommaBeforeAux close fuel rest

/-- Remove trailing commas before `close`. -/
def removeCommaBefore (close : Char) (cs : List Char) : List Char :=
  removeCommaBeforeAux close (cs.length + 1) cs

/-- Final guard of `fixJsonString`: if the string does not start with
`\x7b`, cut to the first `\x7b` when one exists. -/
def ensureStartsBrace (cs : List Char) : List Char :=
  if cs.head? = some '{' then cs
  else if cs.contains '{' then dropToFirstBrace cs
  else cs

/-- Final guard of `fixJsonString`: if the string does not end with
`\x7d`, cut after the last `\x7d` when one exists. -/
def ensureEndsBrace (cs : List Char) : List Char :=
  if cs.getLast? = some '}' then cs
  else if cs.contains '}' then dropAfterLastBrace cs
  else cs

/-- Model of `ModelscopeService.fixJsonString`
(`src/api/services/modelscopeService.ts:645-693`): return the input
unchanged when it already parses, otherwise apply the cleanup chain in
source order. -/
def fixJsonString (cs : List Char) : List Char :=
  if (jsonParse cs).isSome then cs
  else
    let c1 := dropLeadChar (Char.ofNat 0xFEFF) cs
    let c2 := dropLeadChar (Char.ofNat 0x200B) c1
    let c3 := dropLeadChar (Char.ofNat 0x00A0) c2
    let c4 := dropToFirstBrace c3
    let c5 := dropAfterLastBrace c4
    let c6 := stripCtl c5
    let c7 := replaceCtlInStr '\n' 'n' c6
    let c8 := replaceCtlInStr '\r' 'r' c7
    let c9 := replaceCtlInStr '\t' 't' c8
    let c10 := removeCommaBefore '}' c9
    let c11 := removeCommaBefore ']' c10
    let c12 := fixUnterminatedStrings c11
    ensureEndsBrace (ensureStartsBrace c12)


/-! ## Response Normalizer: candidate extraction
Models of the cleanup and JSON-candidate search shared by
`parseExtractResponse` (`src/api/services/modelscopeService.ts:289-390`),
`parseMergeResponse` (563-640) and `parseConvertResponse` (395-425). -/

/-- Model of `String.prototype.trim`: strip whitespace from both ends. -/
def trimWs (cs : List Char) : List Char :=
  ((cs.dropWhile isJsWs).reverse.dropWhile isJsWs).reverse

/-- Model of `.replace(/^LIT\s*/, '')`: strip a literal prefix plus following
whitespace, if present. -/
def stripPrefixLit (lit : List Char) (cs : List Char) : List Char :=
  if lit.isPrefixOf cs then (cs.drop lit.length).dropWhile isJsWs else cs

/-- Model of `.replace(/\s*LIT$/, '')` for a LIT of three backticks: strip a trailing
code-fence marker plus preceding whitespace, if present. -/
def stripSuffixFence (cs : List Char) : List Char :=
  let r := cs.reverse
  if ['`', '`', '`'].isPrefixOf r then ((r.drop 3).dropWhile isJsWs).reverse
  else cs

/-- The four fence-stripping replacements, in source order:
strip a leading/trailing ```json fence, then a bare ``` fence. -/
def cleanFences (cs : List Char) : List Char :=
  let s1 := stripPrefixLit "```json".data cs
  let s2 := stripSuffixFence s1
  let s3 := stripPrefixLit "```".data s2
  stripSuffixFence s3

/-- The brace-depth scanner of `parseExtractResponse`
(`src/api/services/modelscopeService.ts:303-340`): track brace depth while
skipping characters inside quoted strings (honouring backslash escapes);
return the index span of the first balanced top-level `\x7b...\x7d`.
The depth is an `Int` because the source lets `braceCount` go negative on
a stray closing brace. -/
def scanBalancedAux : List Char → Nat → Int → Bool → Bool → Option Nat → Option (Nat × Nat)
  | [], _, _, _, _, _ => none
  | c :: cs, i, braceCount, inString, escapeNext, jsonStart =>
    if escapeNext then scanBalancedAux cs (i + 1) braceCount inString false jsonStart
    else if c = '\\' then scanBalancedAux cs (i + 1) braceCount inString true jsonStart
    else
      let inString' := if c = '"' then !inString else inString
      if inString' then scanBalancedAux cs (i + 1) braceCount inString' false jsonStart
      else if c = '{' then
        let jsonStart' := if braceCount = 0 then some i else jsonStart
        scanBalancedAux cs (i + 1) (braceCount + 1) inString' false jsonStart'
      else if c = '}' then
        match jsonStart with
        | some s =>
          if braceCount - 1 = 0 then some (s, i)
          else scanBalancedAux cs (i + 1) (braceCount - 1) inString' false jsonStart
        | none => scanBalancedAux cs (i + 1) (braceCount - 1) inString' false none
      else scanBalancedAux cs (i + 1) braceCount inString' false jsonStart

/-- Run the balanced scanner and return the captured substring. -/
def scanBalanced (cs : List Char) : Option (List Char) :=
  match scanBalancedAux cs 0 0 false false none with
  | some (s, e) => some ((cs.drop s).take (e + 1 - s))
  | none => none

/-- The fallback `.match(/\x7b[\s\S]*\x7d/)`: greedy span from the first
`\x7b` to the last `\x7d`, `none` when no such span exists. -/
def regexBraceSpan (cs : List Char) : Option (List Char) :=
  match cs.dropWhile (fun c => c ≠ '{') with
  | [] => none
  | _ :: rest =>
    let rr := (rest.reverse.dropWhile (fun c => c ≠ '}')).reverse
    if rr = [] then none else some ('{' :: rr)

/-- Candidate search of `parseExtractResponse` / `parseMergeResponse`:
balanced scan first, greedy first-`\x7b`-to-last-`\x7d` fallback. -/
def extractCandidate (clean : List Char) : Option (List Char) :=
  match scanBalanced clean with
  | some cand => some cand
  | none => regexBraceSpan clean

/-- Last-occurrence field lookup on a JSON object (`JSON.parse` keeps the
last duplicate key; on a non-object the lookup is `undefined`). -/
def jLookup (key : String) (j : Json) : Option Json :=
  match j with
  | Json.obj fields => (fields.reverse.find? (fun f => f.1 = key)).map (·.2)
  | _ => none

/-- JavaScript truthiness of a parsed JSON value (`undefined` is handled by
callers; `"0"`-valued numerals stand for numeric zero). -/
def jsTruthy : Json → Bool
  | Json.null => false
  | Json.bool b => b
  | Json.num raw => raw ≠ "0"
  | Json.str s => s ≠ ""
  | Json.arr _ => true
  | Json.obj _ => true

/-- Replace a field in place, or append it
(the spread `\x7b...rule, k: v\x7d` keeps the key's original position). -/
def setField (key : String) (v : Json) : List (String × Json) → List (String × Json)
  | [] => [(key, v)]
  | f :: fs => if f.1 = key then (key, v) :: fs else f :: setField key v fs

/-- Per-rule field defaulting of `parseExtractResponse`
(`src/api/services/modelscopeService.ts:370-375`):
`id: rule.id || \x60rule_${rule.type}_${Date.now()}\x60`,
`createdAt: rule.createdAt || new Date().toISOString()`, likewise
`updatedAt`.  Non-object elements are left unchanged (the spread would
misbehave on them; the claims never exercise that case). -/
def defaultRuleFields (nowMs : Nat) (nowIso : String) (j : Json) : Json :=
  match j with
  | Json.obj fields =>
    let typeStr := match jLookup "type" (Json.obj fields) with
      | some (Json.str t) => t
      | _ => "undefined"
    let idVal := match jLookup "id" (Json.obj fields) with
      | some v => if jsTruthy v then v
                  else Json.str ("rule_" ++ typeStr ++ "_" ++ toString nowMs)
      | none => Json.str ("rule_" ++ typeStr ++ "_" ++ toString nowMs)
    let createdVal := match jLookup "createdAt" (Json.obj fields) with
      | some v => if jsTruthy v then v else Json.str nowIso
      | none => Json.str nowIso
    let updatedVal := match jLookup "updatedAt" (Json.obj fields) with
      | some v => if jsTruthy v then v else Json.str nowIso
      | none => Json.str nowIso
    Json.obj (setField "updatedAt" updatedVal
      (setField "createdAt" createdVal (setField "id" idVal fields)))
  | other => other

/-- The `parsed.rules` normalization of `parseExtractResponse`
(`src/api/services/modelscopeService.ts:369-376`): when `rules` is an
array, map the defaulting over it; otherwise leave the value untouched. -/
def defaultRules (nowMs : Nat) (nowIso : String) (j : Json) : Json :=
  match j with
  | Json.obj fields =>
    match jLookup "rules" (Json.obj fields) with
    | some (Json.arr l) =>
      Json.obj (setField "rules" (Json.arr (l.map (defaultRuleFields nowMs nowIso))) fields)
    | _ => j
  | _ => j

/-- Model of `ModelscopeService.parseExtractResponse`
(`src/api/services/modelscopeService.ts:289-390`): trim, strip fences,
search for a JSON candidate, repair it with `fixJsonString`, parse, and
default the per-rule fields; any failure is rethrown to the caller. -/
def parseExtractResponseM (nowMs : Nat) (nowIso : String) (response : String) :
    Except String Json :=
  let clean := cleanFences (trimWs response.data)
  match extractCandidate clean with
  | none => Except.error "无法从响应中提取JSON内容"
  | some cand =>
    match jsonParse (fixJsonString cand) with
    | none => Except.error "JSON解析失败"
    | some j => Except.ok (defaultRules nowMs nowIso j)


/-! ## Extraction and conversion orchestrators
Models of `ModelscopeService.extractStyles` (104-158),
`ModelscopeService.convertStyles` / `parseConvertResponse` (163-208,
395-425) and the `AIService` wrapper (`src/api/services/aiService.ts`). -/

/-- The guard `!parsedResult.rules || parsedResult.rules.length === 0`
(`src/api/services/modelscopeService.ts:141`) on the parsed `rules` value:
`true` when the value is absent, falsy, or has length `0`. -/
def rulesEmptyCheck : Option Json → Bool
  | none => true
  | some Json.null => true
  | some (Json.bool b) => !b
  | some (Json.num raw) => raw = "0"
  | some (Json.str s) => s = ""
  | some (Json.arr l) => l.isEmpty
  | some (Json.obj _) => false

/-- Result of `ModelscopeService.extractStyles`: the success flag, the error
message of the failure path, and the parsed payload spread into the
response on success. -/
structure MSExtractResult where
  success : Bool
  error : Option String
  parsed : Option Json

/-- Model of `ModelscopeService.extractStyles`
(`src/api/services/modelscopeService.ts:104-158`).  The completion string
(the model's reply) is an input; `styleTypes` is used only to build the
prompt (line 113) and never touches the result, so it is a parameter the
definition does not consume. -/
def extractStylesM (styleTypes : Option (List String)) (nowMs : Nat) (nowIso : String)
    (completion : String) : MSExtractResult :=
  have _ := styleTypes
  if completion = "" then
    { success := false, error := some "API返回空结果", parsed := none }
  else
    match parseExtractResponseM nowMs nowIso completion with
    | Except.error e => { success := false, error := some e, parsed := none }
    | Except.ok j =>
      if rulesEmptyCheck (jLookup "rules" j) then
        { success := false, error := some "JSON解析成功但未提取到有效规则", parsed := none }
      else
        { success := true, error := none, parsed := some j }

/-- The `rules` array carried by a successful extraction response. -/
def msRules (r : MSExtractResult) : Option (List Json) :=
  match r.parsed with
  | some j =>
    match jLookup "rules" j with
    | some (Json.arr l) => some l
    | _ => none
  | none => none

/-- Response shape of `AIService.extractStyles` (`src/api/services/aiService.ts:77-81`). -/
structure AIExtractResp where
  success : Bool
  rules : List Json
  message : String

/-- The ModelScope branch of `AIService.extractStyles`
(`src/api/services/aiService.ts:149-166`): pass the service result through
unchanged — `rules: result.rules || []` — with no post-parse filtering. -/
def aiServiceExtractMS (ms : MSExtractResult) : AIExtractResp :=
  if ms.success then
    { success := true, rules := (msRules ms).getD [], message := "提取成功" }
  else
    { success := false, rules := [], message := (ms.error).getD "样式提取失败" }

/-- The Rule record of the TypeScript interface
(`src/api/services/modelscopeService.ts:9-18`); optional fields are
`Option`-valued as in the interface. -/
structure Rule where
  id : Option String
  type : String
  name : Option String
  pattern : String
  description : String
  examples : List String
  createdAt : Option String
  updatedAt : Option String
deriving DecidableEq

/-- The post-parse type filter of the OpenAI fallback branch of
`AIService.extractStyles` (`src/api/services/aiService.ts:218-221`):
`extractTypes && extractTypes.length > 0 ? rules.filter(...) : rules`. -/
def openaiFilterRules (extractTypes : Option (List String)) (rules : List Rule) : List Rule :=
  match extractTypes with
  | some ts => if ts.isEmpty then rules else rules.filter (fun r => ts.contains r.type)
  | none => rules

/-- Result of `ModelscopeService.convertStyles`: the success flag, the error
of the empty-completion path, and the four fields the response carries
(spread from the parsed object, so `Option`-valued). -/
structure MSConvertResult where
  success : Bool
  error : Option String
  convertedContent : Option Json
  appliedRules : Option Json
  summary : Option Json
  confidence : Option Json

/-- Model of `ModelscopeService.parseConvertResponse`
(`src/api/services/modelscopeService.ts:395-425`): trim, strip fences,
greedy-regex candidate, `fixJsonString`, `JSON.parse`; any failure is
caught internally and turned into the soft result
`\x7bconvertedContent: '', appliedRules: [], summary: '解析失败',
confidence: 0\x7d` — this function never throws. -/
def parseConvertResponseM (response : String) : Option Json :=
  let clean := cleanFences (trimWs response.data)
  match regexBraceSpan clean with
  | none => none
  | some cand => jsonParse (fixJsonString cand)

/-- Model of `ModelscopeService.convertStyles`
(`src/api/services/modelscopeService.ts:163-208`) from the completion on:
an empty completion throws and is caught into a hard failure; otherwise the
parse result — soft-failure object included — is spread into a
`success: true` response. -/
def convertStylesM (completion : String) : MSConvertResult :=
  if completion = "" then
    { success := false, error := some "API返回空结果",
      convertedContent := none, appliedRules := none,
      summary := none, confidence := none }
  else
    match parseConvertResponseM completion with
    | some j =>
      { success := true, error := none,
        convertedContent := jLookup "convertedContent" j,
        appliedRules := jLookup "appliedRules" j,
        summary := jLookup "summary" j,
        confidence := jLookup "confidence" j }
    | none =>
      { success := true, error := none,
        convertedContent := some (Json.str ""),
        appliedRules := some (Json.arr []),
        summary := some (Json.str "解析失败"),
        confidence := some (Json.num "0") }

/-! ## Caller-side retry policy
Model of the UI extraction handler `handleExtract`
(`src/unnamed/part_005:34-83`): on failure, retry after
`1000 * (currentRetry + 1)` milliseconds while `currentRetry < maxRetries`,
otherwise surface a terminal error message. -/

/-- The constant `maxRetries = 3` (`src/unnamed/part_005:37`). -/
def maxRetries : Nat := 3

/-- Outcome of one attempt of `handleExtract`. -/
inductive ExtractAttemptResult where
  | success
  | retryAfter (delayMs : Nat) (nextAttempt : Nat)
  | terminalFailure
deriving DecidableEq

/-- One step of `handleExtract` at attempt `currentRetry`: a successful
response ends the loop; a failure retries with linearly growing delay
`1000 * (currentRetry + 1)` while retries remain, else is terminal. -/
def handleExtractStep (ok : Bool) (currentRetry : Nat) : ExtractAttemptResult :=
  if ok then ExtractAttemptResult.success
  else if currentRetry < maxRetries then
    ExtractAttemptResult.retryAfter (1000 * (currentRetry + 1)) (currentRetry + 1)
  else ExtractAttemptResult.terminalFailure

/-! ## Rule store and the rule-creation handler
Models of `StorageService` (`src/api/services/storageService.ts`) and the
`POST /api/markdown/rules` handler (`src/api/routes/markdown.ts:131-251`).
The store is the in-file `rules` array; timestamps are epoch
milliseconds. -/

/-- A stored rule record.  The handlers that reach `updateRule` always
supply `type`/`name`/`pattern`/`description`/`examples`
(`src/api/routes/markdown.ts:205-213` and `260-268`), so these fields are
modelled as always present. -/
structure StoredRule where
  id : String
  type : String
  name : String
  pattern : String
  description : String
  examples : List String
  createdAt : Nat
  updatedAt : Nat
deriving DecidableEq

/-- The update payload both call sites pass to `StorageService.updateRule`:
exactly the five content fields, never `id`, `createdAt` or `updatedAt`. -/
structure RuleUpdate where
  type : String
  name : String
  pattern : String
  description : String
  examples : List String
deriving DecidableEq

/-- Model of `rules[index] = \x7b...rules[index], ...updatedRule, updatedAt: now\x7d`
(`src/api/services/storageService.ts:159-163`): overwrite the five content
fields, keep `id` and `createdAt`, stamp `updatedAt`. -/
def applyUpdate (r : StoredRule) (u : RuleUpdate) (now : Nat) : StoredRule :=
  { id := r.id, type := u.type, name := u.name, pattern := u.pattern,
    description := u.description, examples := u.examples,
    createdAt := r.createdAt, updatedAt := now }

/-- Model of `StorageService.updateRule`
(`src/api/services/storageService.ts:151-167`): find the first rule with
the given id (`findIndex`), replace it in place; return the updated rule
(or `none`) together with the saved store. -/
def updateRuleL : List StoredRule → String → RuleUpdate → Nat → Option StoredRule × List StoredRule
  | [], _, _, _ => (none, [])
  | r :: rs, id, u, now =>
    if r.id = id then (some (applyUpdate r u now), applyUpdate r u now :: rs)
    else
      match updateRuleL rs id u now with
      | (o, rs') => (o, r :: rs')

/-- Model of `StorageService.getRuleById`
(`src/api/services/storageService.ts:135-138`). -/
def getRuleById (st : List StoredRule) (id : String) : Option StoredRule :=
  st.find? (fun r => r.id = id)

/-- Model of `StorageService.deleteRule`
(`src/api/services/storageService.ts:172-182`): keep every rule whose id
differs. -/
def deleteRuleL (st : List StoredRule) (id : String) : List StoredRule :=
  st.filter (fun r => r.id ≠ id)

/-- Model of `StorageService.addRules`
(`src/api/services/storageService.ts:125-130`): append. -/
def addRulesL (st : List StoredRule) (newRules : List StoredRule) : List StoredRule :=
  st ++ newRules

/-- The validated body of `POST /api/markdown/rules`
(`src/api/routes/markdown.ts:133-163`): `name` and `examples` are optional
and defaulted in `newRuleData`. -/
structure NewRuleInput where
  type : String
  pattern : String
  description : String
  name : Option String
  examples : Option (List String)

/-- The merged body the Merge Engine hands back on success: the four fields
of `parsedResult.mergedRule` (`src/api/services/modelscopeService.ts:547-552`).
The service then forces `type` back to the new rule's type and the target's
`createdAt` (lines 475-481), which the handler applies. -/
structure MergeBody where
  name : String
  pattern : String
  description : String
  examples : List String
deriving DecidableEq

/-- Outcome of the awaited `mergeRules` call as the handler observes it:
a usable merged body, or any failure (thrown error, `success: false`, or a
parse without a `mergedRule`, which the service turns into a failure at
`src/api/services/modelscopeService.ts:470-471`). -/
inductive MergeOutcome where
  | ok (body : MergeBody)
  | failed
deriving DecidableEq

/-- Response data of `POST /api/markdown/rules` together with the store it
leaves behind. -/
structure CreateRuleResult where
  store : List StoredRule
  success : Bool
  merged : Bool
  mergedCount : Nat

/-- The value `newRuleData` (`src/api/routes/markdown.ts:157-163`) materialized as a
fresh record with the given id and timestamps (lines 226-231). -/
def mkNewRule (inp : NewRuleInput) (freshId : String) (now : Nat) : StoredRule :=
  { id := freshId, type := inp.type,
    name := inp.name.getD (inp.type ++ "规则"),
    pattern := inp.pattern, description := inp.description,
    examples := inp.examples.getD [],
    createdAt := now, updatedAt := now }

/-- Model of the `POST /api/markdown/rules` handler
(`src/api/routes/markdown.ts:131-251`).  When same-type rules exist and the
merge call succeeds: delete every same-type rule but the first, then write
the merged body onto the first one's id (the update's `type` is the request
type, forced by the service at `src/api/services/modelscopeService.ts:478`).
Otherwise insert the proposed rule as a brand-new record. -/
def createRuleHandler (st : List StoredRule) (inp : NewRuleInput)
    (mergeOut : MergeOutcome) (now : Nat) (freshId : String) : CreateRuleResult :=
  let sameTypeRules := st.filter (fun r => r.type = inp.type)
  match sameTypeRules, mergeOut with
  | r0 :: rest, MergeOutcome.ok body =>
    let st1 := rest.foldl (fun s r => deleteRuleL s r.id) st
    let upd : RuleUpdate :=
      { type := inp.type, name := body.name, pattern := body.pattern,
        description := body.description, examples := body.examples }
    let st2 := (updateRuleL st1 r0.id upd now).2
    { store := st2, success := true, merged := true,
      mergedCount := (r0 :: rest).length }
  | _, _ =>
    { store := addRulesL st [mkNewRule inp freshId now],
      success := true, merged := false, mergedCount := 0 }

/-! ## Conversion history
Models of `StorageService.getHistory` / `addHistoryRecord`
(`src/api/services/storageService.ts:265-297`). -/

/-- A conversion history record (`src/api/services/storageService.ts:19-25`). -/
structure HistoryRecord where
  id : String
  originalContent : String
  convertedContent : String
  appliedRuleIds : List String
  createdAt : Nat
deriving DecidableEq

/-- Model of `StorageService.getHistory`
(`src/api/services/storageService.ts:265-268`): sort by `createdAt`
descending (`(a, b) => b.createdAt - a.createdAt` on epoch times). -/
def getHistorySorted (h : List HistoryRecord) : List HistoryRecord :=
  h.mergeSort (fun a b => decide (b.createdAt ≤ a.createdAt))

/-- Model of `StorageService.addHistoryRecord`
(`src/api/services/storageService.ts:280-297`): read the (sorted) history,
prepend the new record (`unshift`), truncate to 100 records
(`splice(100)`), save; return the saved list and the new record. -/
def addHistoryRecordM (h : List HistoryRecord)
    (originalContent convertedContent : String) (appliedRuleIds : List String)
    (nowMs : Nat) (idStr : String) : List HistoryRecord × HistoryRecord :=
  let newRecord : HistoryRecord :=
    { id := idStr, originalContent := originalContent,
      convertedContent := convertedContent,
      appliedRuleIds := appliedRuleIds, createdAt := nowMs }
  ((newRecord :: getHistorySorted h).take 100, newRecord)

/-- Formalization of the wording of the trailing-comma property: the
string contains a comma followed (possibly after whitespace) by the given
closing character. -/
def hasCommaBeforeClose (close : Char) : List Char → Bool
  | [] => false
  | c :: rest =>
    if c = ',' ∧ (rest.dropWhile isJsWs).head? = some close then true
    else hasCommaBeforeClose close rest

/-! ## Claim theorems -/

/-- The scan re-emits the input unchanged and appends a closing quote
exactly when a string literal is open at end-of-input. -/
theorem fusAux_eq_append (cs : List Char) :
    ∀ inString escapeNext,
      fusAux inString escapeNext cs =
        cs ++ (bif endInString inString escapeNext cs then ['"'] else []) := by
  induction cs with
  | nil => intro inString escapeNext; cases escapeNext <;> rfl
  | cons c cs ih =>
    intro inString escapeNext
    cases escapeNext with
    | true => simp [fusAux, endInString, ih]
    | false =>
      by_cases hb : c = '\\'
      · simp [fusAux, endInString, hb, ih]
      · by_cases hq : c = '"'
        · simp [fusAux, endInString, hb, hq, ih]
        · simp [fusAux, endInString, hb, hq, ih]

/-- C9: every failed extraction attempt is retried with a delay that grows
linearly with the attempt count (`1000 * (attempt + 1)` ms), bounded by the
fixed maximum of `3` retries; once retries are exhausted the handler
surfaces a terminal failure instead of retrying further. -/
theorem extract_retry_linear_backoff_bounded :
    (∀ a, a < maxRetries →
      handleExtractStep false a =
        ExtractAttemptResult.retryAfter (1000 * (a + 1)) (a + 1)) ∧
    (∀ a, maxRetries ≤ a →
      handleExtractStep false a = ExtractAttemptResult.terminalFailure) ∧
    maxRetries = 3 := by
  refine ⟨fun a ha => ?_, fun a ha => ?_, rfl⟩
  · simp [handleExtractStep, ha]
  · simp [handleExtractStep, Nat.not_lt.mpr ha]

/-- Witness for C9 at attempts 0 and 3. -/
theorem extract_retry_linear_backoff_bounded_witness :
    handleExtractStep false 0 = ExtractAttemptResult.retryAfter 1000 1 ∧
    handleExtractStep false 3 = ExtractAttemptResult.terminalFailure :=
  ⟨extract_retry_linear_backoff_bounded.1 0 (by decide),
   extract_retry_linear_backoff_bounded.2.1 3 (by decide)⟩

/-- C10: adding a history record prepends the new record (newest first) and
truncates the saved list to at most 100 records; `getHistory` always
returns records sorted by `createdAt` in descending order. -/
theorem history_prepend_truncate_and_sorted
    (h : List HistoryRecord) (oc cc : String) (ids : List String)
    (nowMs : Nat) (idStr : String) :
    (addHistoryRecordM h oc cc ids nowMs idStr).1 =
      ((addHistoryRecordM h oc cc ids nowMs idStr).2 :: getHistorySorted h).take 100 ∧
    (addHistoryRecordM h oc cc ids nowMs idStr).1.length ≤ 100 ∧
    (addHistoryRecordM h oc cc ids nowMs idStr).1.head? =
      some (addHistoryRecordM h oc cc ids nowMs idStr).2 ∧
    (getHistorySorted h).Pairwise (fun a b => b.createdAt ≤ a.createdAt) := by
  refine ⟨rfl, List.length_take_le 100 _, ?_, ?_⟩
  · simp [addHistoryRecordM, List.head?_take]
  · have hs := @List.sorted_mergeSort HistoryRecord
      (fun a b : HistoryRecord => decide (b.createdAt ≤ a.createdAt))
      (fun a b c hab hbc => by
        simp only [decide_eq_true_eq] at *
        omega)
      (fun a b => by
        simp only [Bool.or_eq_true, decide_eq_true_eq]
        omega)
      h
    simpa [getHistorySorted, decide_eq_true_eq] using hs

/-- C8: a mutation through the rule-update operation keeps the rule's `id`
and `createdAt` unchanged and stamps `updatedAt` with the current time,
which is at least as late as the previous `updatedAt` whenever the clock
has not gone backwards. -/
theorem updateRule_preserves_id_createdAt
    (st : List StoredRule) (id : String) (u : RuleUpdate) (now : Nat)
    (r : StoredRule) (hfind : getRuleById st id = some r)
    (hclock : r.updatedAt ≤ now) :
    (updateRuleL st id u now).1 = some (applyUpdate r u now) ∧
    (applyUpdate r u now).id = r.id ∧
    (applyUpdate r u now).createdAt = r.createdAt ∧
    (applyUpdate r u now).updatedAt = now ∧
    r.updatedAt ≤ (applyUpdate r u now).updatedAt := by
  refine ⟨?_, rfl, rfl, rfl, hclock⟩
  induction st with
  | nil => simp [getRuleById] at hfind
  | cons x xs ih =>
    by_cases hx : x.id = id
    · simp only [getRuleById, List.find?_cons, hx] at hfind
      simp only [decide_True] at hfind
      cases hfind
      simp [updateRuleL, hx]
    · simp only [getRuleById, List.find?_cons] at hfind
      rw [decide_eq_false hx] at hfind
      have := ih hfind
      simp [updateRuleL, hx, this]

/-- Witness for C8 on a two-rule store. -/
theorem updateRule_preserves_id_createdAt_witness :
    (updateRuleL
      [⟨"r1", "heading", "n1", "p1", "d1", [], 10, 10⟩,
       ⟨"r2", "list", "n2", "p2", "d2", [], 20, 20⟩]
      "r2" ⟨"list", "n", "p", "d", []⟩ 50).1 =
      some (applyUpdate ⟨"r2", "list", "n2", "p2", "d2", [], 20, 20⟩
        ⟨"list", "n", "p", "d", []⟩ 50) ∧
    (applyUpdate ⟨"r2", "list", "n2", "p2", "d2", [], 20, 20⟩
        ⟨"list", "n", "p", "d", []⟩ 50).id = "r2" ∧
    (applyUpdate ⟨"r2", "list", "n2", "p2", "d2", [], 20, 20⟩
        ⟨"list", "n", "p", "d", []⟩ 50).createdAt = 20 ∧
    (applyUpdate ⟨"r2", "list", "n2", "p2", "d2", [], 20, 20⟩
        ⟨"list", "n", "p", "d", []⟩ 50).updatedAt = 50 ∧
    (20 : Nat) ≤ (applyUpdate ⟨"r2", "list", "n2", "p2", "d2", [], 20, 20⟩
        ⟨"list", "n", "p", "d", []⟩ 50).updatedAt :=
  updateRule_preserves_id_createdAt
    [⟨"r1", "heading", "n1", "p1", "d1", [], 10, 10⟩,
     ⟨"r2", "list", "n2", "p2", "d2", [], 20, 20⟩]
    "r2" ⟨"list", "n", "p", "d", []⟩ 50
    ⟨"r2", "list", "n2", "p2", "d2", [], 20, 20⟩ (by decide) (by decide)

/-- C6: when same-type rules exist but the merge call fails, the handler
inserts the proposed rule as a brand-new independent record with the fresh
id and fresh timestamps, and the request still reports success (the merge
failure is never surfaced as an error). -/
theorem merge_failure_falls_back_to_insert
    (st : List StoredRule) (inp : NewRuleInput) (now : Nat) (freshId : String)
    (hsame : st.filter (fun r => r.type = inp.type) ≠ []) :
    (createRuleHandler st inp MergeOutcome.failed now freshId).success = true ∧
    (createRuleHandler st inp MergeOutcome.failed now freshId).merged = false ∧
    (createRuleHandler st inp MergeOutcome.failed now freshId).store =
      st ++ [mkNewRule inp freshId now] ∧
    (mkNewRule inp freshId now).id = freshId ∧
    (mkNewRule inp freshId now).createdAt = now ∧
    (mkNewRule inp freshId now).updatedAt = now := by
  cases hfilter : st.filter (fun r => r.type = inp.type) with
  | nil => exact absurd hfilter hsame
  | cons r0 rest =>
    refine ⟨?_, ?_, ?_, rfl, rfl, rfl⟩ <;>
      simp [createRuleHandler, hfilter, addRulesL]

/-- Witness for C6 on a store holding one same-type rule. -/
theorem merge_failure_falls_back_to_insert_witness :
    (createRuleHandler [⟨"r1", "heading", "n1", "p1", "d1", [], 10, 10⟩]
      ⟨"heading", "p", "d", none, none⟩ MergeOutcome.failed 99 "rule_99").success = true ∧
    (createRuleHandler [⟨"r1", "heading", "n1", "p1", "d1", [], 10, 10⟩]
      ⟨"heading", "p", "d", none, none⟩ MergeOutcome.failed 99 "rule_99").merged = false ∧
    (createRuleHandler [⟨"r1", "heading", "n1", "p1", "d1", [], 10, 10⟩]
      ⟨"heading", "p", "d", none, none⟩ MergeOutcome.failed 99 "rule_99").store =
      [⟨"r1", "heading", "n1", "p1", "d1", [], 10, 10⟩] ++
        [mkNewRule ⟨"heading", "p", "d", none, none⟩ "rule_99" 99] ∧
    (mkNewRule ⟨"heading", "p", "d", none, none⟩ "rule_99" 99).id = "rule_99" ∧
    (mkNewRule ⟨"heading", "p", "d", none, none⟩ "rule_99" 99).createdAt = 99 ∧
    (mkNewRule ⟨"heading", "p", "d", none, none⟩ "rule_99" 99).updatedAt = 99 :=
  merge_failure_falls_back_to_insert
    [⟨"r1", "heading", "n1", "p1", "d1", [], 10, 10⟩]
    ⟨"heading", "p", "d", none, none⟩ 99 "rule_99" (by decide)

/-- C4: a conversion call whose completion fails to normalize/parse as JSON
does not throw: it returns a delivered result with `success: true` whose
`convertedContent` is the empty string and whose `appliedRules` list is
empty, with the failure summary `解析失败`. -/
theorem convert_unparsable_soft_failure (completion : String)
    (hne : completion ≠ "") (hfail : parseConvertResponseM completion = none) :
    convertStylesM completion =
      { success := true, error := none,
        convertedContent := some (Json.str ""),
        appliedRules := some (Json.arr []),
        summary := some (Json.str "解析失败"),
        confidence := some (Json.num "0") } := by
  simp [convertStylesM, hne, hfail]

/-- Witness for C4 on a prose-only completion with no JSON object in it. -/
theorem convert_unparsable_soft_failure_witness :
    convertStylesM "抱歉，我无法完成转换。" =
      { success := true, error := none,
        convertedContent := some (Json.str ""),
        appliedRules := some (Json.arr []),
        summary := some (Json.str "解析失败"),
        confidence := some (Json.num "0") } :=
  convert_unparsable_soft_failure "抱歉，我无法完成转换。" (by decide) (by rfl)

/-- C3: an extraction whose completion normalizes and parses to a JSON
object with zero rules (missing or empty `rules` array) returns a failure,
not a success with an empty rule list; the wrapper passes the failure
through, and the caller classifies any failed response as retryable while
retries remain. -/
theorem empty_extraction_retryable_failure
    (styleTypes : Option (List String)) (nowMs : Nat) (nowIso : String)
    (completion : String) (j : Json)
    (hne : completion ≠ "")
    (hparse : parseExtractResponseM nowMs nowIso completion = Except.ok j)
    (hempty : jLookup "rules" j = none ∨ jLookup "rules" j = some (Json.arr [])) :
    (extractStylesM styleTypes nowMs nowIso completion).success = false ∧
    (extractStylesM styleTypes nowMs nowIso completion).error =
      some "JSON解析成功但未提取到有效规则" ∧
    (aiServiceExtractMS (extractStylesM styleTypes nowMs nowIso completion)).success
      = false ∧
    (∀ a, a < maxRetries →
      handleExtractStep
        (aiServiceExtractMS (extractStylesM styleTypes nowMs nowIso completion)).success a
        = ExtractAttemptResult.retryAfter (1000 * (a + 1)) (a + 1)) := by
  have hchk : rulesEmptyCheck (jLookup "rules" j) = true := by
    rcases hempty with h | h <;> simp [rulesEmptyCheck, h]
  have hres : extractStylesM styleTypes nowMs nowIso completion =
      { success := false, error := some "JSON解析成功但未提取到有效规则",
        parsed := none } := by
    simp [extractStylesM, hne, hparse, hchk]
  refine ⟨by simp [hres], by simp [hres], by simp [hres, aiServiceExtractMS], ?_⟩
  intro a ha
  simp [hres, aiServiceExtractMS, handleExtractStep, ha]

/-- Witness for C3 on the completion `\x7b"rules": []\x7d`. -/
theorem empty_extraction_retryable_failure_witness :
    (extractStylesM (some ["heading"]) 0 "t0" "\x7b\"rules\": []\x7d").success = false ∧
    (extractStylesM (some ["heading"]) 0 "t0" "\x7b\"rules\": []\x7d").error =
      some "JSON解析成功但未提取到有效规则" ∧
    (aiServiceExtractMS
      (extractStylesM (some ["heading"]) 0 "t0" "\x7b\"rules\": []\x7d")).success = false ∧
    (∀ a, a < maxRetries →
      handleExtractStep
        (aiServiceExtractMS
          (extractStylesM (some ["heading"]) 0 "t0" "\x7b\"rules\": []\x7d")).success a
        = ExtractAttemptResult.retryAfter (1000 * (a + 1)) (a + 1)) :=
  empty_extraction_retryable_failure (some ["heading"]) 0 "t0"
    "\x7b\"rules\": []\x7d" (Json.obj [("rules", Json.arr [])])
    (by decide) (by rfl) (Or.inr rfl)

/-- C2 counterexample: the completion `\x7b"name": "ab` is the well-formed
object `\x7b"name": "abc"\x7d` truncated in the middle of a string literal,
yet the extraction pipeline produces no parseable object at all: the
balanced scanner never closes and the greedy fallback needs a closing
brace, so no candidate is found and the operation fails. -/
theorem truncated_mid_string_extraction_fails :
    endInString false false ("\x7b\"name\": \"ab".data) = true ∧
    extractCandidate (cleanFences (trimWs ("\x7b\"name\": \"ab".data))) = none ∧
    (extractStylesM none 0 "t0" "\x7b\"name\": \"ab").success = false := by
  refine ⟨by rfl, by rfl, by rfl⟩

/-- C2 (amended): the unterminated-string repair `fixUnterminatedStrings`
detects a string literal left open at end-of-input and appends exactly one
closing quote, leaving every character before the truncation point intact;
the pipeline as a whole, however, does not in general recover an object
truncated mid-string, because the truncated closing braces are not
restored. -/
theorem fixUnterminatedStrings_appends_closing_quote (cs : List Char)
    (hopen : endInString false false cs = true) :
    fixUnterminatedStrings cs = cs ++ ['"'] := by
  unfold fixUnterminatedStrings
  rw [fusAux_eq_append, hopen]
  rfl

/-- Witness for the amended C2 on a truncated-mid-string candidate. -/
theorem fixUnterminatedStrings_appends_closing_quote_witness :
    fixUnterminatedStrings ("\x7b\"a\": \"xy".data) =
      ("\x7b\"a\": \"xy".data) ++ ['"'] :=
  fixUnterminatedStrings_appends_closing_quote ("\x7b\"a\": \"xy".data) (by rfl)

/-- C7 counterexample: the completion `\x7b"a": 1,,\x7d` yields a candidate
containing a trailing comma immediately before the closing brace, but the
single-pass replacement removes only that comma and leaves the preceding
one, so the normalized string still fails to parse and extraction fails. -/
theorem doubled_trailing_comma_not_repaired :
    hasCommaBeforeClose '}' ("\x7b\"a\": 1,,\x7d".data) = true ∧
    removeCommaBefore '}' ("\x7b\"a\": 1,,\x7d".data) = ("\x7b\"a\": 1,\x7d".data) ∧
    jsonParse (fixJsonString ("\x7b\"a\": 1,,\x7d".data)) = none ∧
    (extractStylesM none 0 "t0" "\x7b\"a\": 1,,\x7d").success = false := by
  refine ⟨by rfl, by rfl, by rfl, by rfl⟩

/-- C7 (amended): the Normalizer removes, in one global pass, a comma (with
optional whitespace) standing directly before each closing brace/bracket;
a candidate that is well-formed JSON except for a single such trailing
comma is thereby repaired into a parseable object, while a doubled comma is
only partially removed, so parseability is not guaranteed in general. -/
theorem single_trailing_comma_repaired :
    hasCommaBeforeClose '}' ("\x7b\"rules\": [],\x7d".data) = true ∧
    fixJsonString ("\x7b\"rules\": [],\x7d".data) = ("\x7b\"rules\": []\x7d".data) ∧
    jsonParse (fixJsonString ("\x7b\"rules\": [],\x7d".data)) =
      some (Json.obj [("rules", Json.arr [])]) ∧
    hasCommaBeforeClose ']' ("\x7b\"rules\": [1,],\x7d".data) = true ∧
    jsonParse (fixJsonString ("\x7b\"rules\": [1,],\x7d".data)) =
      some (Json.obj [("rules", Json.arr [Json.num "1"])]) := by
  refine ⟨by rfl, by rfl, by rfl, by rfl, by rfl⟩

/-- C5 counterexample: on the ModelScope path — the one the
`POST /api/markdown/extract` route and the `AIService` wrapper actually
take — the requested style types are only embedded in the prompt text and
no post-parse filter is applied, so a call with filter `["heading"]` whose
completion carries a rule of type `"table"` returns that rule: the
returned rules do not all have a requested type. -/
theorem modelscope_extraction_skips_type_filter :
    (aiServiceExtractMS (extractStylesM (some ["heading"]) 0 "t0"
      "\x7b\"rules\": [\x7b\"type\": \"table\", \"pattern\": \"|a|\", \"description\": \"d\", \"examples\": []\x7d]\x7d")).success
      = true ∧
    ((aiServiceExtractMS (extractStylesM (some ["heading"]) 0 "t0"
      "\x7b\"rules\": [\x7b\"type\": \"table\", \"pattern\": \"|a|\", \"description\": \"d\", \"examples\": []\x7d]\x7d")).rules.map
        (jLookup "type"))
      = [some (Json.str "table")] ∧
    (["heading"] : List String).contains "table" = false := by
  refine ⟨by rfl, by rfl, by rfl⟩

/-- C5 (amended): on the OpenAI fallback branch of `AIService.extractStyles`
the non-empty type filter is indeed applied to the parsed rule list after
parsing: every returned rule has a requested type and comes from the parsed
list; the ModelScope branch, by contrast, returns the parsed rules
unfiltered (the requested types reach the model only as prompt text). -/
theorem openai_fallback_filters_after_parsing
    (ts : List String) (rules : List Rule) (r : Rule)
    (hts : ts ≠ []) (hr : r ∈ openaiFilterRules (some ts) rules) :
    r.type ∈ ts ∧ r ∈ rules := by
  have hne : ts.isEmpty = false := by
    cases ts with
    | nil => exact absurd rfl hts
    | cons a l => rfl
  rw [openaiFilterRules, hne] at hr
  simp only [if_false, Bool.false_eq_true, List.mem_filter] at hr
  refine ⟨?_, hr.1⟩
  have := hr.2
  simpa [List.contains_iff_exists_mem_beq, beq_iff_eq] using this

/-- Witness for the amended C5: with filter `["heading"]` over a parsed
list holding a heading rule and a table rule, the heading rule passes the
filter and has a requested type. -/
theorem openai_fallback_filters_after_parsing_witness :
    ("heading" : String) ∈ (["heading"] : List String) ∧
    (⟨some "r1", "heading", none, "# ", "d1", [], none, none⟩ : Rule) ∈
      [(⟨some "r1", "heading", none, "# ", "d1", [], none, none⟩ : Rule),
       ⟨some "r2", "table", none, "|a|", "d2", [], none, none⟩] :=
  openai_fallback_filters_after_parsing ["heading"]
    [⟨some "r1", "heading", none, "# ", "d1", [], none, none⟩,
     ⟨some "r2", "table", none, "|a|", "d2", [], none, none⟩]
    ⟨some "r1", "heading", none, "# ", "d1", [], none, none⟩
    (by decide) (by decide)

/-- Membership in an id-based exclusion filter. -/
theorem mem_filter_not_contains_iff (st : List StoredRule) (ids : List String)
    (x : StoredRule) :
    x ∈ st.filter (fun y => !ids.contains y.id) ↔ x ∈ st ∧ x.id ∉ ids := by
  simp [List.mem_filter, List.contains, List.elem_iff]

/-- Deleting a batch of rules one id at a time filters out exactly the
rules whose id is in the batch. -/
theorem foldl_deleteRuleL_eq_filter (rest : List StoredRule) :
    ∀ st : List StoredRule,
      rest.foldl (fun s r => deleteRuleL s r.id) st =
        st.filter (fun x => !(rest.map StoredRule.id).contains x.id) := by
  induction rest with
  | nil => intro st; simp
  | cons a l ih =>
    intro st
    rw [List.foldl_cons, ih (deleteRuleL st a.id)]
    unfold deleteRuleL
    rw [List.filter_filter]
    congr 1
    funext x
    by_cases h : x.id = a.id <;>
      simp [h, List.map_cons, List.contains_cons]

/-- Lemma: `updateRuleL` replaces the first id match in place. -/
theorem updateRuleL_append (a : List StoredRule) (r0 : StoredRule)
    (b : List StoredRule) (u : RuleUpdate) (now : Nat)
    (ha : ∀ x ∈ a, x.id ≠ r0.id) :
    updateRuleL (a ++ r0 :: b) r0.id u now =
      (some (applyUpdate r0 u now), a ++ applyUpdate r0 u now :: b) := by
  induction a with
  | nil => simp [updateRuleL]
  | cons x xs ih =>
    have hx : x.id ≠ r0.id := ha x (List.mem_cons_self x xs)
    have ih' := ih (fun y hy => ha y (List.mem_cons_of_mem x hy))
    simp [updateRuleL, hx, ih']

/-- C1: when same-type rules exist and the merge call succeeds, the merged
body is written onto the id of the first element of the same-type list
(the earliest-created rule, the list being in creation order), preserving
its `createdAt` and refreshing its `updatedAt`; every other same-type rule
id is deleted, so the store ends with exactly one rule of that type. -/
theorem merge_success_yields_single_canonical_rule
    (st : List StoredRule) (inp : NewRuleInput) (body : MergeBody)
    (now : Nat) (freshId : String) (r0 : StoredRule) (rest : List StoredRule)
    (hids : (st.map StoredRule.id).Nodup)
    (hsame : st.filter (fun r => r.type = inp.type) = r0 :: rest) :
    (createRuleHandler st inp (MergeOutcome.ok body) now freshId).store.filter
        (fun r => r.type = inp.type) =
      [applyUpdate r0
        ⟨inp.type, body.name, body.pattern, body.description, body.examples⟩ now] ∧
    (applyUpdate r0
      ⟨inp.type, body.name, body.pattern, body.description, body.examples⟩ now).id
        = r0.id ∧
    (applyUpdate r0
      ⟨inp.type, body.name, body.pattern, body.description, body.examples⟩ now).createdAt
        = r0.createdAt ∧
    (applyUpdate r0
      ⟨inp.type, body.name, body.pattern, body.description, body.examples⟩ now).updatedAt
        = now ∧
    (∀ r ∈ rest, r.id ∉
      (createRuleHandler st inp (MergeOutcome.ok body) now freshId).store.map
        StoredRule.id) ∧
    (createRuleHandler st inp (MergeOutcome.ok body) now freshId).success = true := by
  have hsub : (r0 :: rest).Sublist st := by
    rw [← hsame]; exact List.filter_sublist st
  have hidsub : ((r0 :: rest).map StoredRule.id).Nodup :=
    (hsub.map StoredRule.id).nodup hids
  have hr0nin : r0.id ∉ rest.map StoredRule.id := (List.nodup_cons.mp hidsub).1
  have hmemtype : ∀ x, x ∈ st ∧ x.type = inp.type ↔ x ∈ r0 :: rest := by
    intro x
    rw [← hsame]
    simp [List.mem_filter]
  have hr0st : r0 ∈ st := hsub.subset (List.mem_cons_self r0 rest)
  have hr0type : r0.type = inp.type :=
    ((hmemtype r0).mpr (List.mem_cons_self r0 rest)).2
  have hst1 : rest.foldl (fun s r => deleteRuleL s r.id) st =
      st.filter (fun x => !(rest.map StoredRule.id).contains x.id) :=
    foldl_deleteRuleL_eq_filter rest st
  have hst1mem : ∀ x,
      x ∈ st.filter (fun y => !(rest.map StoredRule.id).contains y.id) ↔
        x ∈ st ∧ x.id ∉ rest.map StoredRule.id :=
    fun x => mem_filter_not_contains_iff st (rest.map StoredRule.id) x
  have hr0mem1 : r0 ∈ st.filter (fun y => !(rest.map StoredRule.id).contains y.id) :=
    (hst1mem r0).mpr ⟨hr0st, hr0nin⟩
  obtain ⟨A, B, hAB⟩ := List.append_of_mem hr0mem1
  have hst1nodup :
      ((st.filter (fun y => !(rest.map StoredRule.id).contains y.id)).map
        StoredRule.id).Nodup :=
    ((List.filter_sublist st).map StoredRule.id).nodup hids
  rw [hAB, List.map_append, List.map_cons] at hst1nodup
  have hdisj := (List.nodup_append.mp hst1nodup).2.2
  have hAno : r0.id ∉ A.map StoredRule.id := by
    intro hmem
    exact hdisj hmem (List.mem_cons_self _ _)
  have hBno : r0.id ∉ B.map StoredRule.id :=
    (List.nodup_cons.mp (List.nodup_append.mp hst1nodup).2.1).1
  have hupd := updateRuleL_append A r0 B
    ⟨inp.type, body.name, body.pattern, body.description, body.examples⟩ now
    (fun x hx hxid => hAno (List.mem_map.mpr ⟨x, hx, hxid⟩))
  have hstore : (createRuleHandler st inp (MergeOutcome.ok body) now freshId).store =
      A ++ applyUpdate r0
        ⟨inp.type, body.name, body.pattern, body.description, body.examples⟩ now :: B := by
    simp only [createRuleHandler, hsame]
    rw [hst1, hAB, hupd]
  have hsideA : ∀ x ∈ A, x ∈ st ∧ x.id ∉ rest.map StoredRule.id := by
    intro x hx
    exact (hst1mem x).mp (hAB ▸ List.mem_append_left _ hx)
  have hsideB : ∀ x ∈ B, x ∈ st ∧ x.id ∉ rest.map StoredRule.id := by
    intro x hx
    exact (hst1mem x).mp
      (hAB ▸ List.mem_append_right _ (List.mem_cons_of_mem _ hx))
  have hAfilter : A.filter (fun r => r.type = inp.type) = [] := by
    rw [List.filter_eq_nil_iff]
    intro x hxA
    simp only [decide_eq_true_eq]
    intro hxtype
    rcases List.mem_cons.mp ((hmemtype x).mp ⟨(hsideA x hxA).1, hxtype⟩) with
      heq | hxrest
    · subst heq
      exact hAno (List.mem_map.mpr ⟨x, hxA, rfl⟩)
    · exact (hsideA x hxA).2 (List.mem_map.mpr ⟨x, hxrest, rfl⟩)
  have hBfilter : B.filter (fun r => r.type = inp.type) = [] := by
    rw [List.filter_eq_nil_iff]
    intro x hxB
    simp only [decide_eq_true_eq]
    intro hxtype
    rcases List.mem_cons.mp ((hmemtype x).mp ⟨(hsideB x hxB).1, hxtype⟩) with
      heq | hxrest
    · subst heq
      exact hBno (List.mem_map.mpr ⟨x, hxB, rfl⟩)
    · exact (hsideB x hxB).2 (List.mem_map.mpr ⟨x, hxrest, rfl⟩)
  refine ⟨?_, rfl, rfl, rfl, ?_, ?_⟩
  · rw [hstore, List.filter_append, hAfilter]
    simp [hBfilter, applyUpdate]
  · intro r hr hmem
    rw [hstore, List.map_append, List.map_cons] at hmem
    have hrid : r.id ∈ rest.map StoredRule.id := List.mem_map.mpr ⟨r, hr, rfl⟩
    rcases List.mem_append.mp hmem with hA | hC
    · obtain ⟨x, hxA, hxid⟩ := List.mem_map.mp hA
      exact (hsideA x hxA).2 (hxid ▸ hrid)
    · rcases List.mem_cons.mp hC with heq | hB
      · have heq' : r.id = r0.id := heq
        exact hr0nin (heq' ▸ hrid)
      · obtain ⟨x, hxB, hxid⟩ := List.mem_map.mp hB
        exact (hsideB x hxB).2 (hxid ▸ hrid)
  · simp [createRuleHandler, hsame]

/-- Witness for C1: a store with two `heading` rules and one `list` rule;
after a successful merge the store holds exactly one `heading` rule, on the
first heading rule's id with its `createdAt`, and the second heading rule's
id is gone. -/
theorem merge_success_yields_single_canonical_rule_witness :
    (createRuleHandler
      [⟨"r1", "heading", "n1", "p1", "d1", [], 10, 10⟩,
       ⟨"r2", "heading", "n2", "p2", "d2", [], 20, 20⟩,
       ⟨"r3", "list", "n3", "p3", "d3", [], 30, 30⟩]
      ⟨"heading", "p", "d", some "n", some []⟩
      (MergeOutcome.ok ⟨"nm", "pm", "dm", ["e1"]⟩) 99 "rf").store.filter
        (fun r => r.type = (⟨"heading", "p", "d", some "n", some []⟩ : NewRuleInput).type) =
      [applyUpdate ⟨"r1", "heading", "n1", "p1", "d1", [], 10, 10⟩
        ⟨"heading", "nm", "pm", "dm", ["e1"]⟩ 99] ∧
    (applyUpdate ⟨"r1", "heading", "n1", "p1", "d1", [], 10, 10⟩
      ⟨"heading", "nm", "pm", "dm", ["e1"]⟩ 99).id = "r1" ∧
    (applyUpdate ⟨"r1", "heading", "n1", "p1", "d1", [], 10, 10⟩
      ⟨"heading", "nm", "pm", "dm", ["e1"]⟩ 99).createdAt = 10 ∧
    (applyUpdate ⟨"r1", "heading", "n1", "p1", "d1", [], 10, 10⟩
      ⟨"heading", "nm", "pm", "dm", ["e1"]⟩ 99).updatedAt = 99 ∧
    (∀ r ∈ [(⟨"r2", "heading", "n2", "p2", "d2", [], 20, 20⟩ : StoredRule)], r.id ∉
      (createRuleHandler
        [⟨"r1", "heading", "n1", "p1", "d1", [], 10, 10⟩,
         ⟨"r2", "heading", "n2", "p2", "d2", [], 20, 20⟩,
         ⟨"r3", "list", "n3", "p3", "d3", [], 30, 30⟩]
        ⟨"heading", "p", "d", some "n", some []⟩
        (MergeOutcome.ok ⟨"nm", "pm", "dm", ["e1"]⟩) 99 "rf").store.map
          StoredRule.id) ∧
    (createRuleHandler
      [⟨"r1", "heading", "n1", "p1", "d1", [], 10, 10⟩,
       ⟨"r2", "heading", "n2", "p2", "d2", [], 20, 20⟩,
       ⟨"r3", "list", "n3", "p3", "d3", [], 30, 30⟩]
      ⟨"heading", "p", "d", some "n", some []⟩
      (MergeOutcome.ok ⟨"nm", "pm", "dm", ["e1"]⟩) 99 "rf").success = true :=
  merge_success_yields_single_canonical_rule
    [⟨"r1", "heading", "n1", "p1", "d1", [], 10, 10⟩,
     ⟨"r2", "heading", "n2", "p2", "d2", [], 20, 20⟩,
     ⟨"r3", "list", "n3", "p3", "d3", [], 30, 30⟩]
    ⟨"heading", "p", "d", some "n", some []⟩ ⟨"nm", "pm", "dm", ["e1"]⟩ 99 "rf"
    ⟨"r1", "heading", "n1", "p1", "d1", [], 10, 10⟩
    [⟨"r2", "heading", "n2", "p2", "d2", [], 20, 20⟩]
    (by decide) (by decide)
